import Mathlib

/-!
# Verification of the Dijkstra engine (`src/algorithms/dijkstra/dijkstra.py`)

Shallow embedding of the algorithm module: the heap helpers mirror CPython's
`heapq` (`heappush`/`heappop` with `_siftdown`/`_siftup`), and the engine,
validator, parser and result facade are translated function by function.

Modelling conventions:
* Python `float` values are modelled exactly as integers extended with `+∞`
  (`WithTop ℤ`); every concrete value appearing in the specification's claims
  is an integer or `inf`, and no property below depends on fractional values.
* Python dicts keyed by `0..n-1` are modelled as lists indexed by position;
  `dict.get` with a default becomes `List.getD`.
* Python sets of node indices are modelled as `Finset ℕ`.
* `raise ValueError` becomes an `Except.error` result.
* The unbounded `while` loop of `get_path` is modelled with explicit fuel;
  exhausting the fuel (value `none` of `getPathLoop`) marks divergence of the
  Python loop.  A fuel of `previous.length + 1` is sufficient for every
  acyclic predecessor chain, since such a chain can take at most
  `previous.length` successful lookups before reaching `None`.
-/

namespace DijkstraSpec

/-- Numeric values carried by the engine: an integer weight or `float('inf')`. -/
abbrev QI := WithTop ℤ

/-- A frontier entry `(tentative distance, node index)` as pushed on the heap. -/
abbrev Entry := QI × ℕ

/-- Python tuple comparison `(d1, n1) < (d2, n2)` (lexicographic). -/
def entryLT (a b : Entry) : Bool :=
  decide (a.1 < b.1 ∨ (a.1 = b.1 ∧ a.2 < b.2))

/-- Placeholder used for out-of-range list reads; real runs never hit it. -/
def dfltEntry : Entry := (((0 : ℤ) : QI), 0)

/-- CPython `heapq._siftdown(heap, startpos, pos)` with `newitem = heap[pos]`
passed explicitly (the Python code reads it before the loop).  The `while`
loop is driven by a structural counter: `pos` strictly decreases each
iteration, so a counter starting at `pos` keeps `pos ≤ counter` invariant;
when the counter reaches `0` then `pos = 0`, where the loop guard
`pos > startpos` is false and the loop writes `heap[pos] = newitem` — exactly
the base case below.  Hence this equals the unbounded Python loop. -/
def siftdownGo (startpos : ℕ) (newitem : Entry) : ℕ → List Entry → ℕ → List Entry
  | 0, heap, pos => heap.set pos newitem
  | counter + 1, heap, pos =>
    if startpos < pos then
      if entryLT newitem (heap.getD ((pos - 1) / 2) dfltEntry) then
        siftdownGo startpos newitem counter
          (heap.set pos (heap.getD ((pos - 1) / 2) dfltEntry)) ((pos - 1) / 2)
      else heap.set pos newitem
    else heap.set pos newitem

/-- `heapq._siftdown` entry point: the counter starts at `pos`. -/
def siftdownAux (startpos : ℕ) (newitem : Entry) (heap : List Entry) (pos : ℕ) :
    List Entry :=
  siftdownGo startpos newitem pos heap pos

/-- CPython `heapq.heappush(heap, item)`: append then sift down from the end. -/
def heappush (heap : List Entry) (item : Entry) : List Entry :=
  siftdownAux 0 item (heap ++ [item]) heap.length

/-- CPython `heapq._siftup` main loop: `pos`/`childpos` walk down the tree,
then `_siftdown` restores the invariant.  The Python `if` choosing the smaller
child is unrolled into the two recursive calls.  The `while childpos < endpos`
loop is driven by a structural counter: `endpos - childpos` strictly decreases
each iteration (the new `childpos` is `2*c + 1 > childpos`), so a counter
starting at `endpos` keeps `endpos - childpos ≤ counter` invariant; when the
counter reaches `0` the guard `childpos < endpos` is false and the loop exits
into `heap[pos] = newitem; _siftdown(heap, startpos, pos)` — exactly the base
case below.  Hence this equals the unbounded Python loop. -/
def siftupGo (endpos startpos : ℕ) (newitem : Entry) :
    ℕ → List Entry → ℕ → ℕ → List Entry
  | 0, heap, pos, _ => siftdownAux startpos newitem (heap.set pos newitem) pos
  | counter + 1, heap, pos, childpos =>
    if childpos < endpos then
      if childpos + 1 < endpos ∧
          entryLT (heap.getD childpos dfltEntry) (heap.getD (childpos + 1) dfltEntry) = false then
        siftupGo endpos startpos newitem counter
          (heap.set pos (heap.getD (childpos + 1) dfltEntry)) (childpos + 1)
          (2 * (childpos + 1) + 1)
      else
        siftupGo endpos startpos newitem counter
          (heap.set pos (heap.getD childpos dfltEntry)) childpos (2 * childpos + 1)
    else
      siftdownAux startpos newitem (heap.set pos newitem) pos

/-- `heapq._siftup` main loop entry point: the counter starts at `endpos`. -/
def siftupAux (endpos startpos : ℕ) (newitem : Entry) (heap : List Entry)
    (pos childpos : ℕ) : List Entry :=
  siftupGo endpos startpos newitem endpos heap pos childpos

/-- CPython `heapq._siftup(heap, pos)`. -/
def siftup (heap : List Entry) (pos : ℕ) : List Entry :=
  siftupAux heap.length pos (heap.getD pos dfltEntry) heap pos (2 * pos + 1)

/-- CPython `heapq.heappop(heap)`: pop the last element, move it to the root,
sift up; returns `(returned item, remaining heap)`.  Python raises on an empty
heap; the engine only calls it with a non-empty frontier, so the empty case
returns a placeholder. -/
def heappop (heap : List Entry) : Entry × List Entry :=
  match heap.getLast? with
  | none => (dfltEntry, [])
  | some lastelt =>
    let rest := heap.dropLast
    if rest.isEmpty then (lastelt, [])
    else (rest.getD 0 dfltEntry, siftup (rest.set 0 lastelt) 0)

/-- One recorded snapshot of the run (class `AlgorithmStep`).  `current_node`
is an integer because the final step stores the sentinel `-1`. -/
structure AlgorithmStep where
  step_number : ℕ
  current_node : ℤ
  visited : Finset ℕ
  distances : List QI
  previous : List (Option ℕ)
  priority_queue : List Entry
  description : String
deriving DecidableEq

/-- Result record of the engine (class `DijkstraResult`). -/
structure DijkstraResult where
  distances : List QI
  previous : List (Option ℕ)
  steps : List AlgorithmStep
  source : ℕ
deriving DecidableEq

/-- `str(x)` for the numbers the engine prints: `float('inf')` prints `inf`. -/
def pyNumStr (q : QI) : String :=
  match q with
  | none => "inf"
  | some n => toString n

/-- The nested helper `get_label` of `dijkstra`: a label list that is `None`
or empty is falsy in Python, so the node index is used; otherwise the label is
used whenever `node < len(node_labels)`. -/
def get_label (node_labels : Option (List String)) (node : ℕ) : String :=
  match node_labels with
  | some ls => if node < ls.length then ls.getD node "" else toString node
  | none => toString node

/-- `matrix_to_adjacency_list`: edge `i -> j` iff `i ≠ j`, weight `> 0` and
weight `≠ inf`; neighbors listed in increasing `j`, rows in increasing `i`. -/
def matrix_to_adjacency_list (matrix : List (List QI)) : List (List (ℕ × QI)) :=
  (List.range matrix.length).map fun i =>
    (List.range matrix.length).filterMap fun j =>
      let w := (matrix.getD i []).getD j (((0 : ℤ) : QI))
      if i ≠ j ∧ (((0 : ℤ) : QI)) < w ∧ w ≠ ⊤ then some (j, w) else none

/-- State produced by the neighbor-relaxation loop body. -/
structure RelaxOut where
  dist : List QI
  prev : List (Option ℕ)
  pq : List Entry
  steps : List AlgorithmStep
  sn : ℕ
deriving DecidableEq

/-- The `for neighbor, weight in adj_list[current_node]` loop of `dijkstra`:
skip finalized neighbors, otherwise relax, push and record an update step. -/
def relaxNeighbors (labels : Option (List String)) (u : ℕ) (visited : Finset ℕ) :
    List (ℕ × QI) → List QI → List (Option ℕ) → List Entry →
      List AlgorithmStep → ℕ → RelaxOut
  | [], dist, prev, pq, steps, sn => ⟨dist, prev, pq, steps, sn⟩
  | (v, w) :: rest, dist, prev, pq, steps, sn =>
    if v ∈ visited then relaxNeighbors labels u visited rest dist prev pq steps sn
    else
      let new_dist := dist.getD u ⊤ + w
      if new_dist < dist.getD v ⊤ then
        let old_dist := dist.getD v ⊤
        let dist1 := dist.set v new_dist
        let prev1 := prev.set v (some u)
        let pq1 := heappush pq (new_dist, v)
        let old_str := if old_dist = ⊤ then "infinity" else pyNumStr old_dist
        let st : AlgorithmStep :=
          ⟨sn + 1, (u : ℤ), visited, dist1, prev1, pq1,
            "Update distance to " ++ get_label labels v ++ ": " ++ old_str ++
              " -> " ++ pyNumStr new_dist ++ " (via " ++ get_label labels u ++ ")"⟩
        relaxNeighbors labels u visited rest dist1 prev1 pq1 (steps ++ [st]) (sn + 1)
      else relaxNeighbors labels u visited rest dist prev pq steps sn

/-- State returned by the main `while priority_queue` loop. -/
structure LoopOut where
  visited : Finset ℕ
  dist : List QI
  prev : List (Option ℕ)
  steps : List AlgorithmStep
  sn : ℕ
deriving DecidableEq

/-- The `while priority_queue:` loop of `dijkstra`, driven by a structural
counter.  Justification that the counter is exact: each iteration pops one
frontier entry, and entries are pushed only while relaxing the neighbors of a
node being finalized for the first time, at most one push per adjacency-list
entry of that node.  Hence the quantity
`pq.length + Σ over not-yet-finalized nodes of their adjacency-list length`
strictly decreases every iteration, so a counter starting at or above it
keeps `pq.length ≤ counter`; when the counter reaches `0` the frontier is
empty and the loop exits with the current state — exactly the base case
below.  Hence this equals the unbounded Python loop. -/
def dijkstraLoop (adj : List (List (ℕ × QI))) (labels : Option (List String)) :
    ℕ → List Entry → Finset ℕ → List QI → List (Option ℕ) →
      List AlgorithmStep → ℕ → LoopOut
  | 0, _, visited, dist, prev, steps, sn => ⟨visited, dist, prev, steps, sn⟩
  | counter + 1, pq, visited, dist, prev, steps, sn =>
    match pq with
    | [] => ⟨visited, dist, prev, steps, sn⟩
    | _ :: _ =>
      if (heappop pq).1.2 ∈ visited then
        dijkstraLoop adj labels counter (heappop pq).2 visited dist prev steps (sn + 1)
      else
        let u := (heappop pq).1.2
        let visited1 := insert u visited
        let visitStep : AlgorithmStep :=
          ⟨sn + 1, (u : ℤ), visited1, dist, prev, (heappop pq).2,
            "Visit node " ++ get_label labels u ++ " (distance = " ++
              pyNumStr (heappop pq).1.1 ++ ")"⟩
        let r := relaxNeighbors labels u visited1 (adj.getD u []) dist prev
          (heappop pq).2 (steps ++ [visitStep]) (sn + 1)
        dijkstraLoop adj labels counter r.pq visited1 r.dist r.prev r.steps r.sn

/-- `dijkstra(adj_matrix, source, node_labels)`.  The Python function raises
`ValueError` when the source is out of range; that is the `Except.error` case.
(The source index is a natural number, so the `source < 0` half of the Python
range check cannot arise.)  The loop counter starts at the exact iteration
bound `pq0.length + Σ adjacency-list lengths` described at `dijkstraLoop`. -/
def dijkstra (adj_matrix : List (List QI)) (source : ℕ)
    (node_labels : Option (List String)) : Except String DijkstraResult :=
  let n := adj_matrix.length
  if source ≥ n then
    Except.error ("Source node " ++ toString source ++ " is out of range [0, " ++
      toString ((n : ℤ) - 1) ++ "]")
  else
    let adj := matrix_to_adjacency_list adj_matrix
    let dist0 := (List.replicate n (⊤ : QI)).set source (((0 : ℤ) : QI))
    let prev0 : List (Option ℕ) := List.replicate n none
    let pq0 : List Entry := [(((0 : ℤ) : QI), source)]
    let initStep : AlgorithmStep :=
      ⟨0, (source : ℤ), ∅, dist0, prev0, pq0,
        "Initialize: Set distance to source node " ++ get_label node_labels source ++
          " = 0, all others = infinity"⟩
    let counter := pq0.length + ((adj.map List.length).sum)
    let out := dijkstraLoop adj node_labels counter pq0 ∅ dist0 prev0 [initStep] 0
    let finalStep : AlgorithmStep :=
      ⟨out.sn + 1, (-1 : ℤ), out.visited, out.dist, out.prev, [],
        "Algorithm complete! All reachable nodes have been visited."⟩
    Except.ok ⟨out.dist, out.prev, out.steps ++ [finalStep], source⟩

/-- The `while current is not None` walk of `DijkstraResult.get_path`, with
fuel.  `none` marks fuel exhaustion, i.e. divergence of the Python loop. -/
def getPathLoop (prev : List (Option ℕ)) : ℕ → Option ℕ → Option (List ℕ)
  | _, none => some []
  | 0, some _ => none
  | fuel + 1, some c => (getPathLoop prev fuel (prev.getD c none)).map (fun p => c :: p)

/-- Proposition: the predecessor walk of `get_path` from `target` never
reaches `None`, i.e. the Python `while` loop runs forever. -/
def GetPathDiverges (r : DijkstraResult) (target : ℕ) : Prop :=
  ∀ fuel, getPathLoop r.previous fuel (some target) = none

/-- `DijkstraResult.get_path`: `None` when the target is unknown or its final
distance is infinite, otherwise the predecessor chain reversed into
source-to-target order.  An acyclic chain finishes within the allotted fuel
`previous.length + 1` (proved below); for a cyclic chain the Python loop
diverges, which the fuel model maps to `none`. -/
def DijkstraResult.get_path (r : DijkstraResult) (target : ℕ) : Option (List ℕ) :=
  if target < r.distances.length ∧ r.distances.getD target ⊤ ≠ ⊤ then
    (getPathLoop r.previous (r.previous.length + 1) (some target)).map List.reverse
  else none

/-- `DijkstraResult.get_distance`: `self.distances.get(target, float('inf'))`. -/
def DijkstraResult.get_distance (r : DijkstraResult) (target : ℕ) : QI :=
  r.distances.getD target ⊤

/-- A Python value reaching `validate_matrix`: a number, or anything else
(modelled by its `str` rendering, which is all the validator uses of it). -/
inductive PyVal where
  | num (x : QI)
  | other (raw : String)
deriving DecidableEq

/-- One entry check of `validate_matrix`: `isinstance` first, then `val < 0`. -/
def checkVal (i j : ℕ) (v : PyVal) : Option String :=
  match v with
  | .other s => some ("Invalid value at [" ++ toString i ++ "][" ++ toString j ++ "]: " ++ s)
  | .num x =>
    if x < ((0 : ℤ) : QI) then
      some ("Negative weight at [" ++ toString i ++ "][" ++ toString j ++ "]: " ++
        pyNumStr x ++ " (Dijkstra requires non-negative weights)")
    else none

/-- The inner `for j, val in enumerate(row)` loop of `validate_matrix`. -/
def checkVals (i : ℕ) : List PyVal → ℕ → Option String
  | [], _ => none
  | v :: rest, j =>
    match checkVal i j v with
    | some e => some e
    | none => checkVals i rest (j + 1)

/-- The outer `for i, row in enumerate(matrix)` loop of `validate_matrix`:
per row, the length check comes first, then the entry checks. -/
def checkRows (n : ℕ) : List (List PyVal) → ℕ → Option String
  | [], _ => none
  | row :: rest, i =>
    if row.length ≠ n then
      some ("Row " ++ toString i ++ " has " ++ toString row.length ++
        " elements, expected " ++ toString n)
    else
      match checkVals i row 0 with
      | some e => some e
      | none => checkRows n rest (i + 1)

/-- `validate_matrix(matrix) -> (is_valid, error_message)`. -/
def validate_matrix (matrix : List (List PyVal)) : Bool × String :=
  if matrix = [] then (false, "Matrix is empty")
  else
    match checkRows matrix.length matrix 0 with
    | some e => (false, e)
    | none => (true, "Valid")

/-- Python `str.strip()` on a character list. -/
def pyStrip (cs : List Char) : List Char :=
  ((cs.dropWhile Char.isWhitespace).reverse.dropWhile Char.isWhitespace).reverse

/-- Python `str.split(sep)` for a one-character separator: split at every
occurrence, keeping empty pieces (as Python does). -/
def splitOnChar (sep : Char) : List Char → List (List Char)
  | [] => [[]]
  | c :: rest =>
    if c = sep then [] :: splitOnChar sep rest
    else
      match splitOnChar sep rest with
      | [] => [[c]]
      | g :: gs => (c :: g) :: gs

/-- Grouping for Python `str.split()` (no argument): cut at every whitespace
character; the caller drops the empty groups. -/
def splitWhen (p : Char → Bool) : List Char → List (List Char)
  | [] => [[]]
  | c :: rest =>
    if p c then [] :: splitWhen p rest
    else
      match splitWhen p rest with
      | [] => [[c]]
      | g :: gs => (c :: g) :: gs

/-- Decimal digit run to an integer value. -/
def digitsVal (cs : List Char) : ℤ :=
  cs.foldl (fun a c => a * 10 + ((c.toNat : ℤ) - 48)) 0

/-- Modelled subset of Python `float(v)` restricted to the integer-valued
model: surrounding whitespace, an optional sign, a nonempty digit run,
optionally followed by `.` and a digit run denoting zero (all `0`).
Case-insensitive `inf`/`infinity` also succeed (as they do in CPython).
Tokens denoting non-integral values are outside this model; no claim
exercises them. -/
def pyFloat? (s : List Char) : Option QI :=
  if (String.mk ((pyStrip s).map Char.toLower)) ∈
      (["inf", "infinity", "+inf", "+infinity"] : List String) then
    some ⊤
  else
    let cs := pyStrip s
    let sb : ℤ × List Char :=
      match cs with
      | '-' :: rest => (-1, rest)
      | '+' :: rest => (1, rest)
      | _ => (1, cs)
    match (sb.2).span Char.isDigit with
    | (ip, []) => if ip ≠ [] then some ((sb.1 * digitsVal ip : ℤ) : QI) else none
    | (ip, '.' :: fp) =>
      if (ip ≠ [] ∨ fp ≠ []) ∧ fp.all (fun c => c = '0') ∧ fp.all Char.isDigit then
        some ((sb.1 * digitsVal ip : ℤ) : QI)
      else none
    | _ => none

/-- One token of `parse_matrix_string`: the explicit infinity tokens first —
note the source file literally contains the mojibake sequence `"âˆž"` (the
UTF-8 bytes of `∞` misdecoded), not the glyph `∞` — then `float(v)`. -/
def parseToken (v : List Char) : Option QI :=
  if (String.mk (v.map Char.toLower)) ∈ (["inf", "infinity", "âˆž"] : List String) then
    some ⊤
  else pyFloat? v

/-- Splitting one line into value tokens: comma-separated when the line
contains a comma (stripping and dropping empty pieces), else `str.split()`. -/
def lineTokens (line : List Char) : List (List Char) :=
  if line.contains ',' then
    ((splitOnChar ',' line).map pyStrip).filter (fun v => v ≠ [])
  else
    (splitWhen Char.isWhitespace line).filter (fun v => v ≠ [])

/-- The `for j, v in enumerate(values)` loop: first unparseable token wins. -/
def parseValues (i : ℕ) : List (List Char) → ℕ → Except String (List QI)
  | [], _ => Except.ok []
  | v :: rest, j =>
    match parseToken v with
    | some x =>
      match parseValues i rest (j + 1) with
      | Except.error e => Except.error e
      | Except.ok row => Except.ok (x :: row)
    | none =>
      Except.error ("Invalid number at row " ++ toString (i + 1) ++ ", column " ++
        toString (j + 1) ++ ": '" ++ String.mk v ++ "'")

/-- The `for i, line in enumerate(lines)` loop of `parse_matrix_string`. -/
def parseRows : List (List Char) → ℕ → Except String (List (List QI))
  | [], _ => Except.ok []
  | l :: rest, i =>
    match parseValues i (lineTokens l) 0 with
    | Except.error e => Except.error e
    | Except.ok row =>
      match parseRows rest (i + 1) with
      | Except.error e => Except.error e
      | Except.ok rows => Except.ok (row :: rows)

/-- The post-parse squareness scan of `parse_matrix_string`. -/
def squareMsg (n : ℕ) : List (List QI) → ℕ → Option String
  | [], _ => none
  | row :: rest, i =>
    if row.length ≠ n then
      some ("Matrix is not square: row " ++ toString (i + 1) ++ " has " ++
        toString row.length ++ " elements, expected " ++ toString n)
    else squareMsg n rest (i + 1)

/-- `parse_matrix_string(matrix_str) -> (matrix or None, message)`.  The
enclosing `try/except` of the source cannot fire in this total model. -/
def parse_matrix_string (matrix_str : String) : Option (List (List QI)) × String :=
  let lines := ((splitOnChar '\n' (pyStrip matrix_str.data)).map pyStrip).filter
    (fun l => l ≠ [])
  if lines = [] then (none, "No data provided")
  else
    match parseRows lines 0 with
    | Except.error e => (none, e)
    | Except.ok matrix =>
      match squareMsg matrix.length matrix 0 with
      | some e => (none, e)
      | none =>
        match validate_matrix (matrix.map (fun row => row.map PyVal.num)) with
        | (true, _) => (some matrix, "Success")
        | (false, msg) => (none, msg)

/-! ## Step classification

The engine emits four shapes of description, each with a distinct fixed
prefix (`Initialize: `, `Visit node `, `Update distance to `,
`Algorithm complete!`), so a step's kind is recoverable from its
description. -/

/-- Is this step a "visit" step (description begins `Visit node `)? -/
def isVisitStepB (st : AlgorithmStep) : Bool :=
  "Visit node ".data.isPrefixOf st.description.data

/-- Is this step an "update" (relaxation) step? -/
def isUpdateStepB (st : AlgorithmStep) : Bool :=
  "Update distance to ".data.isPrefixOf st.description.data

/-- The visited node of each visit step, in trace order. -/
def visitNodes (steps : List AlgorithmStep) : List ℤ :=
  (steps.filter (fun st => isVisitStepB st)).map AlgorithmStep.current_node

/-- Step numbers of a trace are strictly increasing and bounded by the
current counter value. -/
def StepsOK (steps : List AlgorithmStep) (sn : ℕ) : Prop :=
  (steps.map AlgorithmStep.step_number).Pairwise (· < ·) ∧
    ∀ st ∈ steps, st.step_number ≤ sn

instance {ε α : Type} [DecidableEq ε] [DecidableEq α] : DecidableEq (Except ε α) :=
  fun x y =>
    match x, y with
    | .error a, .error b =>
      if h : a = b then isTrue (by rw [h])
      else isFalse (by intro hc; cases hc; exact h rfl)
    | .error _, .ok _ => isFalse (by intro hc; cases hc)
    | .ok _, .error _ => isFalse (by intro hc; cases hc)
    | .ok a, .ok b =>
      if h : a = b then isTrue (by rw [h])
      else isFalse (by intro hc; cases hc; exact h rfl)

/-! ## Concrete fixtures used by the claims -/

/-- Scenario A matrix `[[0,4,2,0],[4,0,1,5],[2,1,0,8],[0,5,8,0]]`. -/
def exMatrixA : List (List QI) :=
  [[((0 : ℤ) : QI), ((4 : ℤ) : QI), ((2 : ℤ) : QI), ((0 : ℤ) : QI)],
   [((4 : ℤ) : QI), ((0 : ℤ) : QI), ((1 : ℤ) : QI), ((5 : ℤ) : QI)],
   [((2 : ℤ) : QI), ((1 : ℤ) : QI), ((0 : ℤ) : QI), ((8 : ℤ) : QI)],
   [((0 : ℤ) : QI), ((5 : ℤ) : QI), ((8 : ℤ) : QI), ((0 : ℤ) : QI)]]

/-- Scenario B matrix `[[0,0],[0,0]]` (two isolated nodes). -/
def exMatrixB : List (List QI) :=
  [[((0 : ℤ) : QI), ((0 : ℤ) : QI)], [((0 : ℤ) : QI), ((0 : ℤ) : QI)]]

/-- A two-node connected matrix `[[0,1],[1,0]]`. -/
def exMatrixC : List (List QI) :=
  [[((0 : ℤ) : QI), ((1 : ℤ) : QI)], [((1 : ℤ) : QI), ((0 : ℤ) : QI)]]

/-- The run of scenario B from source `0` (node `1` unreachable). -/
def exResultB : DijkstraResult :=
  ((dijkstra exMatrixB 0 none).toOption).getD ⟨[], [], [], 0⟩

/-- The run on the single-node matrix `[[0]]` from source `0`. -/
def exResult1 : DijkstraResult :=
  ((dijkstra [[((0 : ℤ) : QI)]] 0 none).toOption).getD ⟨[], [], [], 0⟩

/-- A `DijkstraResult` value with a cyclic predecessor map
(`previous = {0: 1, 1: 0}`) and finite distances. -/
def cyclicResult : DijkstraResult :=
  ⟨[((0 : ℤ) : QI), ((0 : ℤ) : QI)], [some 1, some 0], [], 0⟩

/-- A tiny well-formed result used to witness the amended termination claim. -/
def acyclicResult : DijkstraResult :=
  ⟨[((0 : ℤ) : QI)], [none], [], 0⟩

/-- The initialization step `dijkstra` records (named subterm of `dijkstra`,
introduced for the lemmas below). -/
def initStepOf (m : List (List QI)) (s : ℕ) (labels : Option (List String)) :
    AlgorithmStep :=
  ⟨0, (s : ℤ), ∅, (List.replicate m.length (⊤ : QI)).set s (((0 : ℤ) : QI)),
    List.replicate m.length none, [(((0 : ℤ) : QI), s)],
    "Initialize: Set distance to source node " ++ get_label labels s ++
      " = 0, all others = infinity"⟩

/-- The loop output of a successful `dijkstra` run (named subterm of
`dijkstra`, introduced for the lemmas below). -/
def dijkstraOut (m : List (List QI)) (s : ℕ) (labels : Option (List String)) : LoopOut :=
  dijkstraLoop (matrix_to_adjacency_list m) labels
    ([(((0 : ℤ) : QI), s)].length + ((matrix_to_adjacency_list m).map List.length).sum)
    [(((0 : ℤ) : QI), s)] ∅
    ((List.replicate m.length (⊤ : QI)).set s (((0 : ℤ) : QI)))
    (List.replicate m.length none) [initStepOf m s labels] 0

/-- The completion step `dijkstra` appends after the loop (named subterm of
`dijkstra`). -/
def finalStepOf (out : LoopOut) : AlgorithmStep :=
  ⟨out.sn + 1, (-1 : ℤ), out.visited, out.dist, out.prev, [],
    "Algorithm complete! All reachable nodes have been visited."⟩

/-! ## Exhaustive violation list (for the amended C4) -/

def entryViolations (i : ℕ) : List PyVal → ℕ → List String
  | [], _ => []
  | v :: rest, j => (checkVal i j v).toList ++ entryViolations i rest (j + 1)

/-- Modelled from the amended claim's words: all violations of a row, the
row-length check first, then the entry checks in order. -/
def rowViolations (n i : ℕ) (row : List PyVal) : List String :=
  (if row.length ≠ n then
    ["Row " ++ toString i ++ " has " ++ toString row.length ++
      " elements, expected " ++ toString n]
  else []) ++ entryViolations i row 0

/-- Modelled from the amended claim's words: all violations of all rows, in
row order. -/
def allViolations (n : ℕ) : List (List PyVal) → ℕ → List String
  | [], _ => []
  | row :: rest, i => rowViolations n i row ++ allViolations n rest (i + 1)

/-- Modelled from the amended claim's words: report emptiness first,
otherwise the first violation in the per-row interleaved traversal order
(each row's length check, then its entries in order, then the next row). -/
def validateSpecOrder (matrix : List (List PyVal)) : Bool × String :=
  if matrix = [] then (false, "Matrix is empty")
  else
    match allViolations matrix.length matrix 0 with
    | [] => (true, "Valid")
    | e :: _ => (false, e)


/-! ## Claims -/

lemma isPrefixOf_append_self (l t : List Char) : (l.isPrefixOf (l ++ t)) = true := by
  induction l with
  | nil => simp [List.isPrefixOf]
  | cons a as ih => simp [List.isPrefixOf, ih]

lemma cons_isPrefixOf_cons_ne {a b : Char} (as bs : List Char) (h : a ≠ b) :
    ((a :: as).isPrefixOf (b :: bs)) = false := by
  simp [List.isPrefixOf, h]


/-! ### Heap size facts -/

lemma siftdownGo_length (startpos : ℕ) (newitem : Entry) :
    ∀ counter heap pos,
      (siftdownGo startpos newitem counter heap pos).length = heap.length := by
  intro counter
  induction counter with
  | zero => intro heap pos; rw [siftdownGo, List.length_set]
  | succ c ih =>
    intro heap pos
    rw [siftdownGo]
    split
    · split
      · rw [ih, List.length_set]
      · rw [List.length_set]
    · rw [List.length_set]

lemma siftdownAux_length (startpos : ℕ) (newitem : Entry) (heap : List Entry) (pos : ℕ) :
    (siftdownAux startpos newitem heap pos).length = heap.length := by
  rw [siftdownAux, siftdownGo_length]

lemma siftupGo_length (endpos startpos : ℕ) (newitem : Entry) :
    ∀ counter heap pos childpos,
      (siftupGo endpos startpos newitem counter heap pos childpos).length = heap.length := by
  intro counter
  induction counter with
  | zero => intro heap pos childpos; rw [siftupGo, siftdownAux_length, List.length_set]
  | succ c ih =>
    intro heap pos childpos
    rw [siftupGo]
    split
    · split
      · rw [ih, List.length_set]
      · rw [ih, List.length_set]
    · rw [siftdownAux_length, List.length_set]

lemma siftupAux_length (endpos startpos : ℕ) (newitem : Entry) (heap : List Entry)
    (pos childpos : ℕ) :
    (siftupAux endpos startpos newitem heap pos childpos).length = heap.length := by
  rw [siftupAux, siftupGo_length]

lemma siftup_length (heap : List Entry) (pos : ℕ) :
    (siftup heap pos).length = heap.length := by
  rw [siftup, siftupAux_length]

lemma heappop_snd_length (heap : List Entry) (hne : heap ≠ []) :
    (heappop heap).2.length + 1 = heap.length := by
  have hlen : 0 < heap.length := List.length_pos.mpr hne
  unfold heappop
  split
  · next hl => exact absurd (List.getLast?_eq_none_iff.mp hl) hne
  · next lastelt hl =>
    by_cases hres : heap.dropLast.isEmpty
    · rw [if_pos hres]
      have h0 : heap.dropLast = [] := List.isEmpty_iff.mp hres
      have hd := heap.length_dropLast
      rw [h0] at hd
      simp only [List.length_nil] at hd
      simp only [List.length_nil]
      omega
    · rw [if_neg hres]
      show (siftup (heap.dropLast.set 0 lastelt) 0).length + 1 = heap.length
      rw [siftup_length, List.length_set, List.length_dropLast]
      omega

lemma relaxNeighbors_nil (labels : Option (List String)) (u : ℕ) (visited : Finset ℕ)
    (dist : List QI) (prev : List (Option ℕ)) (pq : List Entry)
    (steps : List AlgorithmStep) (sn : ℕ) :
    relaxNeighbors labels u visited [] dist prev pq steps sn = ⟨dist, prev, pq, steps, sn⟩ :=
  rfl


/-- C1: on matrix `[[0,4,2,0],[4,0,1,5],[2,1,0,8],[0,5,8,0]]` with source 0,
`dijkstra` ends with distances `{0:0, 1:3, 2:2, 3:8}` and
`get_path(3) = [0,2,1,3]`. -/
theorem C1_scenarioA :
    (dijkstra exMatrixA 0 none).map
        (fun r => (r.distances, r.get_path 3)) =
      Except.ok
        ([((0 : ℤ) : QI), ((3 : ℤ) : QI), ((2 : ℤ) : QI), ((8 : ℤ) : QI)],
          some [0, 2, 1, 3]) := by
  decide

/-- C2: `dijkstra` is deterministic — two invocations on the same matrix,
source and labels agree on the whole result and on every per-step field
(step numbers, current nodes, visited sets, distance maps, predecessor maps,
frontier snapshots, descriptions).  In this embedding the engine is a pure
function, which is exactly the source situation: the Python code reads no
state other than its arguments and uses no nondeterminism. -/
theorem C2_deterministic (m : List (List QI)) (s : ℕ) (labels : Option (List String)) :
    dijkstra m s labels = dijkstra m s labels ∧
    (dijkstra m s labels).map (fun r => r.steps.length) =
      (dijkstra m s labels).map (fun r => r.steps.length) ∧
    (dijkstra m s labels).map (fun r => r.steps.map AlgorithmStep.step_number) =
      (dijkstra m s labels).map (fun r => r.steps.map AlgorithmStep.step_number) ∧
    (dijkstra m s labels).map (fun r => r.steps.map AlgorithmStep.current_node) =
      (dijkstra m s labels).map (fun r => r.steps.map AlgorithmStep.current_node) ∧
    (dijkstra m s labels).map (fun r => r.steps.map AlgorithmStep.visited) =
      (dijkstra m s labels).map (fun r => r.steps.map AlgorithmStep.visited) ∧
    (dijkstra m s labels).map (fun r => r.steps.map AlgorithmStep.distances) =
      (dijkstra m s labels).map (fun r => r.steps.map AlgorithmStep.distances) ∧
    (dijkstra m s labels).map (fun r => r.steps.map AlgorithmStep.previous) =
      (dijkstra m s labels).map (fun r => r.steps.map AlgorithmStep.previous) ∧
    (dijkstra m s labels).map (fun r => r.steps.map AlgorithmStep.priority_queue) =
      (dijkstra m s labels).map (fun r => r.steps.map AlgorithmStep.priority_queue) ∧
    (dijkstra m s labels).map (fun r => r.steps.map AlgorithmStep.description) =
      (dijkstra m s labels).map (fun r => r.steps.map AlgorithmStep.description) ∧
    (dijkstra m s labels).map DijkstraResult.distances =
      (dijkstra m s labels).map DijkstraResult.distances ∧
    (dijkstra m s labels).map DijkstraResult.previous =
      (dijkstra m s labels).map DijkstraResult.previous :=
  ⟨rfl, rfl, rfl, rfl, rfl, rfl, rfl, rfl, rfl, rfl, rfl⟩

set_option maxHeartbeats 1600000 in
/-- C6: the parser maps case-insensitive `inf`/`infinity` to `+∞`, but the
infinity glyph `∞` is REJECTED as an invalid number: the source's token table
contains the mojibake three-character sequence `âˆž` (the UTF-8 bytes of `∞`
misdecoded as cp1252) instead of the glyph, so only that corrupted sequence
is accepted. -/
theorem C6_infinity_tokens :
    parse_matrix_string "∞" = (none, "Invalid number at row 1, column 1: '∞'") ∧
    parse_matrix_string "INF" = (some [[⊤]], "Success") ∧
    parse_matrix_string "iNfInItY" = (some [[⊤]], "Success") ∧
    parse_matrix_string "âˆž" = (some [[⊤]], "Success") := by
  refine ⟨by decide, by decide, by decide, by decide⟩

/-- C8: for a result of `dijkstra`, an unreachable target (final distance
infinite) gets `get_path = None` and `get_distance = ∞`, and any target index
outside the known range gets `get_distance = ∞`. -/
theorem C8_unreachable_queries (m : List (List QI)) (s t t2 : ℕ)
    (labels : Option (List String)) (r : DijkstraResult)
    (_h : dijkstra m s labels = Except.ok r)
    (hu : r.distances.getD t ⊤ = ⊤) (ht2 : r.distances.length ≤ t2) :
    r.get_path t = none ∧ r.get_distance t = ⊤ ∧ r.get_distance t2 = ⊤ := by
  refine ⟨?_, hu, List.getD_eq_default _ _ ht2⟩
  rw [DijkstraResult.get_path, if_neg]
  rintro ⟨h1, hne⟩
  exact hne hu

/-- C8 witness at scenario B (`[[0,0],[0,0]]`, source 0): node 1 is
unreachable and index 5 is outside the known range. -/
theorem C8_unreachable_queries_witness :
    exResultB.get_path 1 = none ∧ exResultB.get_distance 1 = ⊤ ∧
      exResultB.get_distance 5 = ⊤ :=
  C8_unreachable_queries exMatrixB 0 1 5 none exResultB (by decide) (by decide)
    (by decide)

/-- C7 counterexample: with matrix `[[0,1],[1,0]]` (so N = 2) and the
length-mismatched label list `["A"]`, the step descriptions name node 0
`A` — an entry of the mismatched list — not its numeric index `0`. -/
theorem C7_counterexample :
    (dijkstra exMatrixC 0 (some ["A"])).map
        (fun r => r.steps.map AlgorithmStep.description) =
      Except.ok
        ["Initialize: Set distance to source node A = 0, all others = infinity",
         "Visit node A (distance = 0)",
         "Update distance to 1: infinity -> 1 (via A)",
         "Visit node 1 (distance = 1)",
         "Algorithm complete! All reachable nodes have been visited."] := by
  decide

/-- C7 amended: node names in step descriptions come from `get_label`, whose
fallback to the numeric index is per node, not per list: the index string is
used exactly when the list is absent, empty, or no longer than the node's
index; a present, shorter list still labels the nodes it covers. -/
theorem C7_label_per_node (ls : List String) (node : ℕ) :
    get_label none node = toString node ∧
    (ls.length ≤ node → get_label (some ls) node = toString node) ∧
    (node < ls.length → get_label (some ls) node = ls.getD node "") := by
  refine ⟨rfl, fun h => ?_, fun h => ?_⟩
  · show (if node < ls.length then ls.getD node "" else toString node) = toString node
    rw [if_neg (by omega)]
  · show (if node < ls.length then ls.getD node "" else toString node) = ls.getD node ""
    rw [if_pos h]

/-- C7 witness: label list `["A"]` with 2 nodes — node 1 falls back to "1",
node 0 still gets "A"; an absent list gives "1". -/
theorem C7_label_per_node_witness :
    get_label none 1 = "1" ∧ get_label (some ["A"]) 1 = "1" ∧
      get_label (some ["A"]) 0 = "A" :=
  ⟨(C7_label_per_node [] 1).1,
   (C7_label_per_node ["A"] 1).2.1 (by decide),
   (C7_label_per_node ["A"] 0).2.2 (by decide)⟩

/-! ## C4: validator check order -/

/-- Violations of one row's entries in traversal order (for each entry in
order: numericness, then non-negativity). -/
lemma head?_append_of_some {α : Type} {l : List α} {a : α} (l2 : List α)
    (h : l.head? = some a) : (l ++ l2).head? = some a := by
  cases l with
  | nil => exact absurd h (by simp)
  | cons x xs => simpa using h

lemma checkVals_head (i : ℕ) : ∀ row j, checkVals i row j = (entryViolations i row j).head? := by
  intro row
  induction row with
  | nil => intro j; rfl
  | cons v rest ih =>
    intro j
    rw [checkVals, entryViolations]
    cases h : checkVal i j v with
    | some e => simp [h]
    | none => simp [h, ih]

lemma checkRows_head (n : ℕ) : ∀ rows i, checkRows n rows i = (allViolations n rows i).head? := by
  intro rows
  induction rows with
  | nil => intro i; rfl
  | cons row rest ih =>
    intro i
    rw [checkRows, allViolations, rowViolations]
    by_cases hlen : row.length ≠ n
    · rw [if_pos hlen, if_pos hlen]
      simp
    · rw [if_neg hlen, if_neg hlen]
      simp only [List.nil_append]
      cases hv : checkVals i row 0 with
      | some e =>
        rw [checkVals_head] at hv
        rw [head?_append_of_some _ hv]
      | none =>
        rw [checkVals_head] at hv
        have hnil : entryViolations i row 0 = [] := List.head?_eq_none_iff.mp hv
        rw [hnil, List.nil_append, ih]

/-- C4 amended: `validate_matrix` checks non-emptiness first, then traverses
the rows in order checking each row's length first and then each of its
entries in order (numericness, then non-negativity), reporting the first
violation in this traversal order — so a non-numeric entry in an early row is
reported before a wrong length of a later row. -/
theorem C4_amended_order (matrix : List (List PyVal)) :
    validate_matrix matrix = validateSpecOrder matrix := by
  rw [validate_matrix, validateSpecOrder]
  by_cases h : matrix = []
  · rw [if_pos h, if_pos h]
  · rw [if_neg h, if_neg h, checkRows_head]
    cases hl : allViolations matrix.length matrix 0 with
    | nil => rfl
    | cons e rest => rfl

/-- C4 counterexample: the matrix `[[<non-numeric "x">, 1], [1]]` has a
non-numeric entry in row 0 and a wrong-length row 1; the claim says the
squareness violation is reported, but the code reports the invalid value of
row 0. -/
theorem C4_counterexample :
    validate_matrix [[PyVal.other "x", PyVal.num ((1 : ℤ) : QI)],
        [PyVal.num ((1 : ℤ) : QI)]] =
      (false, "Invalid value at [0][0]: x") ∧
    (validate_matrix [[PyVal.other "x", PyVal.num ((1 : ℤ) : QI)],
        [PyVal.num ((1 : ℤ) : QI)]]).2 ≠
      "Row 1 has 1 elements, expected 2" := by
  refine ⟨by decide, by decide⟩

/-! ## C3: termination of get_path -/

lemma getPathLoop_succ (prev : List (Option ℕ)) (fuel : ℕ) (c : ℕ) :
    getPathLoop prev (fuel + 1) (some c)
      = (getPathLoop prev fuel (prev.getD c none)).map (fun p => c :: p) := rfl

/-- C3 counterexample: on the malformed result with the cyclic predecessor
map `{0: 1, 1: 0}` and finite distances, the predecessor walk of
`get_path(0)` never reaches `None`: the Python loop runs forever. -/
theorem C3_counterexample :
    GetPathDiverges cyclicResult 0 ∧
      0 < cyclicResult.distances.length ∧ cyclicResult.distances.getD 0 ⊤ ≠ ⊤ := by
  refine ⟨?_, by decide, by decide⟩
  have key : ∀ fuel, getPathLoop cyclicResult.previous fuel (some 0) = none ∧
      getPathLoop cyclicResult.previous fuel (some 1) = none := by
    intro fuel
    induction fuel with
    | zero => exact ⟨rfl, rfl⟩
    | succ f ih =>
      refine ⟨?_, ?_⟩
      · have h0 : getPathLoop cyclicResult.previous (f + 1) (some 0)
            = (getPathLoop cyclicResult.previous f (some 1)).map (fun p => 0 :: p) :=
          rfl
        rw [h0, ih.2]
        rfl
      · have h1 : getPathLoop cyclicResult.previous (f + 1) (some 1)
            = (getPathLoop cyclicResult.previous f (some 0)).map (fun p => 1 :: p) :=
          rfl
        rw [h1, ih.1]
        rfl
  intro fuel
  exact (key fuel).1

/-- C3 amended: `get_path` terminates on every result whose predecessor map
is acyclic — witnessed by a rank strictly decreasing along predecessor links
and bounded by the map size — completing its walk within the allotted fuel
`previous.length + 1`.  (The original claim, over all results including
malformed ones, fails: see the cyclic counterexample.) -/
theorem C3_amended_terminating (r : DijkstraResult) (target : ℕ) (rank : ℕ → ℕ)
    (hrank : ∀ c p, r.previous.getD c none = some p → rank p < rank c)
    (hbound : ∀ c, rank c ≤ r.previous.length) :
    ∃ l, getPathLoop r.previous (r.previous.length + 1) (some target) = some l := by
  have key : ∀ k t, rank t ≤ k →
      ∃ l, getPathLoop r.previous (k + 1) (some t) = some l := by
    intro k
    induction k with
    | zero =>
      intro t ht
      cases hp : r.previous.getD t none with
      | none => exact ⟨[t], by rw [getPathLoop_succ, hp]; rfl⟩
      | some p => exact absurd (hrank t p hp) (by omega)
    | succ k ih =>
      intro t ht
      cases hp : r.previous.getD t none with
      | none => exact ⟨[t], by rw [getPathLoop_succ, hp]; rfl⟩
      | some p =>
        obtain ⟨l, hl⟩ := ih p (by have := hrank t p hp; omega)
        exact ⟨t :: l, by rw [getPathLoop_succ, hp, hl]; rfl⟩
  exact key r.previous.length target (hbound target)

/-- C3 witness: on a one-node result with `previous = [None]` the constant
rank works and the walk from node 0 completes. -/
theorem C3_amended_terminating_witness :
    ∃ l, getPathLoop acyclicResult.previous (acyclicResult.previous.length + 1)
        (some 0) = some l :=
  C3_amended_terminating acyclicResult 0 (fun _ => 0)
    (by
      intro c p h
      rcases c with _ | c
      · exact Option.noConfusion h
      · exact Option.noConfusion h)
    (fun c => Nat.zero_le _)

/-! ## Trace-shape lemmas: the four description prefixes are disjoint -/

lemma visit_prefix_self (t : List Char) :
    ("Visit node ".data.isPrefixOf ("Visit node ".data ++ t)) = true :=
  isPrefixOf_append_self _ _

lemma update_prefix_self (t : List Char) :
    ("Update distance to ".data.isPrefixOf ("Update distance to ".data ++ t)) = true :=
  isPrefixOf_append_self _ _

lemma visit_not_prefix_update (t : List Char) :
    ("Visit node ".data.isPrefixOf ("Update distance to ".data ++ t)) = false := by
  have h1 : "Visit node ".data = 'V' :: "isit node ".data := rfl
  have h2 : "Update distance to ".data ++ t
      = 'U' :: ("pdate distance to ".data ++ t) := rfl
  rw [h1, h2]
  exact cons_isPrefixOf_cons_ne _ _ (by decide)

lemma update_not_prefix_visit (t : List Char) :
    ("Update distance to ".data.isPrefixOf ("Visit node ".data ++ t)) = false := by
  have h1 : "Update distance to ".data = 'U' :: "pdate distance to ".data := rfl
  have h2 : "Visit node ".data ++ t = 'V' :: ("isit node ".data ++ t) := rfl
  rw [h1, h2]
  exact cons_isPrefixOf_cons_ne _ _ (by decide)

lemma visit_not_prefix_init (t : List Char) :
    ("Visit node ".data.isPrefixOf
      ("Initialize: Set distance to source node ".data ++ t)) = false := by
  have h1 : "Visit node ".data = 'V' :: "isit node ".data := rfl
  have h2 : "Initialize: Set distance to source node ".data ++ t
      = 'I' :: ("nitialize: Set distance to source node ".data ++ t) := rfl
  rw [h1, h2]
  exact cons_isPrefixOf_cons_ne _ _ (by decide)

lemma update_not_prefix_init (t : List Char) :
    ("Update distance to ".data.isPrefixOf
      ("Initialize: Set distance to source node ".data ++ t)) = false := by
  have h1 : "Update distance to ".data = 'U' :: "pdate distance to ".data := rfl
  have h2 : "Initialize: Set distance to source node ".data ++ t
      = 'I' :: ("nitialize: Set distance to source node ".data ++ t) := rfl
  rw [h1, h2]
  exact cons_isPrefixOf_cons_ne _ _ (by decide)

/-! ## Heap membership lemmas -/

lemma getD_mem_or {α : Type} (l : List α) (i : ℕ) (d : α) :
    l.getD i d ∈ l ∨ l.getD i d = d := by
  by_cases h : i < l.length
  · left
    rw [List.getD_eq_getElem l d h]
    exact List.getElem_mem h
  · right
    exact List.getD_eq_default _ _ (by omega)

lemma siftdownGo_subset (startpos : ℕ) (newitem : Entry) :
    ∀ counter heap pos, ∀ x ∈ siftdownGo startpos newitem counter heap pos,
      x ∈ heap ∨ x = newitem ∨ x = dfltEntry := by
  intro counter
  induction counter with
  | zero =>
    intro heap pos x hx
    rw [siftdownGo] at hx
    rcases List.mem_or_eq_of_mem_set hx with h | h
    · exact Or.inl h
    · exact Or.inr (Or.inl h)
  | succ c ih =>
    intro heap pos x hx
    rw [siftdownGo] at hx
    split at hx
    · split at hx
      · rcases ih _ _ x hx with h | h | h
        · rcases List.mem_or_eq_of_mem_set h with h2 | h2
          · exact Or.inl h2
          · rcases getD_mem_or heap ((pos - 1) / 2) dfltEntry with h3 | h3
            · exact Or.inl (h2 ▸ h3)
            · exact Or.inr (Or.inr (h2.trans h3))
        · exact Or.inr (Or.inl h)
        · exact Or.inr (Or.inr h)
      · rcases List.mem_or_eq_of_mem_set hx with h | h
        · exact Or.inl h
        · exact Or.inr (Or.inl h)
    · rcases List.mem_or_eq_of_mem_set hx with h | h
      · exact Or.inl h
      · exact Or.inr (Or.inl h)

lemma siftdownAux_subset (startpos : ℕ) (newitem : Entry) (heap : List Entry) (pos : ℕ) :
    ∀ x ∈ siftdownAux startpos newitem heap pos,
      x ∈ heap ∨ x = newitem ∨ x = dfltEntry := by
  intro x hx
  exact siftdownGo_subset startpos newitem pos heap pos x hx

lemma siftupGo_subset (endpos startpos : ℕ) (newitem : Entry) :
    ∀ counter heap pos childpos,
      ∀ x ∈ siftupGo endpos startpos newitem counter heap pos childpos,
        x ∈ heap ∨ x = newitem ∨ x = dfltEntry := by
  intro counter
  induction counter with
  | zero =>
    intro heap pos childpos x hx
    rw [siftupGo] at hx
    rcases siftdownAux_subset _ _ _ _ x hx with h | h | h
    · rcases List.mem_or_eq_of_mem_set h with h2 | h2
      · exact Or.inl h2
      · exact Or.inr (Or.inl h2)
    · exact Or.inr (Or.inl h)
    · exact Or.inr (Or.inr h)
  | succ c ih =>
    intro heap pos childpos x hx
    rw [siftupGo] at hx
    split at hx
    · split at hx
      · rcases ih _ _ _ x hx with h | h | h
        · rcases List.mem_or_eq_of_mem_set h with h2 | h2
          · exact Or.inl h2
          · rcases getD_mem_or heap (childpos + 1) dfltEntry with h3 | h3
            · exact Or.inl (h2 ▸ h3)
            · exact Or.inr (Or.inr (h2.trans h3))
        · exact Or.inr (Or.inl h)
        · exact Or.inr (Or.inr h)
      · rcases ih _ _ _ x hx with h | h | h
        · rcases List.mem_or_eq_of_mem_set h with h2 | h2
          · exact Or.inl h2
          · rcases getD_mem_or heap childpos dfltEntry with h3 | h3
            · exact Or.inl (h2 ▸ h3)
            · exact Or.inr (Or.inr (h2.trans h3))
        · exact Or.inr (Or.inl h)
        · exact Or.inr (Or.inr h)
    · rcases siftdownAux_subset _ _ _ _ x hx with h | h | h
      · rcases List.mem_or_eq_of_mem_set h with h2 | h2
        · exact Or.inl h2
        · exact Or.inr (Or.inl h2)
      · exact Or.inr (Or.inl h)
      · exact Or.inr (Or.inr h)

lemma heappush_subset (heap : List Entry) (item : Entry) :
    ∀ x ∈ heappush heap item, x ∈ heap ∨ x = item ∨ x = dfltEntry := by
  intro x hx
  rw [heappush, siftdownAux] at hx
  rcases siftdownGo_subset _ _ _ _ _ x hx with h | h | h
  · rcases List.mem_append.mp h with h2 | h2
    · exact Or.inl h2
    · exact Or.inr (Or.inl (List.mem_singleton.mp h2))
  · exact Or.inr (Or.inl h)
  · exact Or.inr (Or.inr h)

lemma heappop_fst_mem (heap : List Entry) (hne : heap ≠ []) :
    (heappop heap).1 ∈ heap := by
  unfold heappop
  split
  · next hl => exact absurd (List.getLast?_eq_none_iff.mp hl) hne
  · next lastelt hl =>
    have hlast : lastelt ∈ heap := by
      rcases List.getLast?_eq_some_iff.mp hl with ⟨l2, hl2⟩
      rw [hl2]
      exact List.mem_append.mpr (Or.inr (List.mem_singleton.mpr rfl))
    by_cases hres : heap.dropLast.isEmpty
    · rw [if_pos hres]
      exact hlast
    · rw [if_neg hres]
      have hlen : 0 < heap.dropLast.length := by
        cases hd : heap.dropLast with
        | nil => rw [hd] at hres; exact absurd rfl hres
        | cons a t => exact Nat.succ_pos _
      show heap.dropLast.getD 0 dfltEntry ∈ heap
      rw [List.getD_eq_getElem _ _ hlen]
      exact heap.dropLast_sublist.subset (List.getElem_mem hlen)

lemma heappop_snd_subset (heap : List Entry) :
    ∀ x ∈ (heappop heap).2, x ∈ heap ∨ x = dfltEntry := by
  unfold heappop
  split
  · intro x hx
    exact absurd hx (List.not_mem_nil x)
  · next lastelt hl =>
    have hlast : lastelt ∈ heap := by
      rcases List.getLast?_eq_some_iff.mp hl with ⟨l2, hl2⟩
      rw [hl2]
      exact List.mem_append.mpr (Or.inr (List.mem_singleton.mpr rfl))
    by_cases hres : heap.dropLast.isEmpty
    · rw [if_pos hres]
      intro x hx
      exact absurd hx (List.not_mem_nil x)
    · rw [if_neg hres]
      intro x hx
      show x ∈ heap ∨ x = dfltEntry
      have hsub : ∀ y, y ∈ heap.dropLast.set 0 lastelt → y ∈ heap := by
        intro y hy
        rcases List.mem_or_eq_of_mem_set hy with h2 | h2
        · exact heap.dropLast_sublist.subset h2
        · exact h2 ▸ hlast
      rcases siftupGo_subset _ _ _ _ _ _ _ x hx with h | h | h
      · exact Or.inl (hsub x h)
      · rcases getD_mem_or (heap.dropLast.set 0 lastelt) 0 dfltEntry with h3 | h3
        · exact Or.inl (hsub _ (h ▸ h3))
        · exact Or.inr (h.trans h3)
      · exact Or.inr h

/-! ## Equation lemmas for the relaxation loop -/

lemma relaxNeighbors_cons_visited (labels : Option (List String)) (u v : ℕ) (w : QI)
    (visited : Finset ℕ) (rest : List (ℕ × QI)) (dist : List QI)
    (prev : List (Option ℕ)) (pq : List Entry) (steps : List AlgorithmStep) (sn : ℕ)
    (h : v ∈ visited) :
    relaxNeighbors labels u visited ((v, w) :: rest) dist prev pq steps sn
      = relaxNeighbors labels u visited rest dist prev pq steps sn := by
  rw [relaxNeighbors, if_pos h]

lemma relaxNeighbors_cons_improve (labels : Option (List String)) (u v : ℕ) (w : QI)
    (visited : Finset ℕ) (rest : List (ℕ × QI)) (dist : List QI)
    (prev : List (Option ℕ)) (pq : List Entry) (steps : List AlgorithmStep) (sn : ℕ)
    (h : v ∉ visited) (himp : dist.getD u ⊤ + w < dist.getD v ⊤) :
    relaxNeighbors labels u visited ((v, w) :: rest) dist prev pq steps sn
      = relaxNeighbors labels u visited rest (dist.set v (dist.getD u ⊤ + w))
          (prev.set v (some u)) (heappush pq (dist.getD u ⊤ + w, v))
          (steps ++
            [⟨sn + 1, (u : ℤ), visited, dist.set v (dist.getD u ⊤ + w),
              prev.set v (some u), heappush pq (dist.getD u ⊤ + w, v),
              "Update distance to " ++ get_label labels v ++ ": " ++
                (if dist.getD v ⊤ = ⊤ then "infinity" else pyNumStr (dist.getD v ⊤)) ++
                " -> " ++ pyNumStr (dist.getD u ⊤ + w) ++ " (via " ++
                get_label labels u ++ ")"⟩])
          (sn + 1) := by
  simp only [relaxNeighbors]
  rw [if_neg h, if_pos himp]

lemma relaxNeighbors_cons_noimp (labels : Option (List String)) (u v : ℕ) (w : QI)
    (visited : Finset ℕ) (rest : List (ℕ × QI)) (dist : List QI)
    (prev : List (Option ℕ)) (pq : List Entry) (steps : List AlgorithmStep) (sn : ℕ)
    (h : v ∉ visited) (himp : ¬ dist.getD u ⊤ + w < dist.getD v ⊤) :
    relaxNeighbors labels u visited ((v, w) :: rest) dist prev pq steps sn
      = relaxNeighbors labels u visited rest dist prev pq steps sn := by
  simp only [relaxNeighbors]
  rw [if_neg h, if_neg himp]

/-- What one pass of the relaxation loop does to the frontier, the step list
and the counter: the counter never decreases; every frontier entry either was
already there or carries a neighbor's index; the step list only grows, each
new step being an update step with a step number in `(sn, final sn]`, and the
new step numbers strictly increasing. -/
lemma relaxNeighbors_spec (labels : Option (List String)) (u : ℕ) (visited : Finset ℕ) :
    ∀ (nbrs : List (ℕ × QI)) (dist : List QI) (prev : List (Option ℕ))
      (pq : List Entry) (steps : List AlgorithmStep) (sn : ℕ),
      sn ≤ (relaxNeighbors labels u visited nbrs dist prev pq steps sn).sn ∧
      (∀ e ∈ (relaxNeighbors labels u visited nbrs dist prev pq steps sn).pq,
        e ∈ pq ∨ e.2 ∈ nbrs.map Prod.fst ∨ e = dfltEntry) ∧
      ∃ t, (relaxNeighbors labels u visited nbrs dist prev pq steps sn).steps
            = steps ++ t ∧
        (∀ st ∈ t, isUpdateStepB st = true ∧ isVisitStepB st = false ∧
          sn < st.step_number ∧
          st.step_number ≤ (relaxNeighbors labels u visited nbrs dist prev pq steps sn).sn) ∧
        (t.map AlgorithmStep.step_number).Pairwise (· < ·) := by
  intro nbrs
  induction nbrs with
  | nil =>
    intro dist prev pq steps sn
    refine ⟨le_rfl, fun e he => Or.inl he, [], (List.append_nil steps).symm,
      fun st hst => absurd hst (List.not_mem_nil st), List.Pairwise.nil⟩
  | cons vw rest ih =>
    obtain ⟨v, w⟩ := vw
    intro dist prev pq steps sn
    by_cases hv : v ∈ visited
    · rw [relaxNeighbors_cons_visited _ _ _ _ _ _ _ _ _ _ _ hv]
      obtain ⟨h1, h2, t, ht, hmem, hpw⟩ := ih dist prev pq steps sn
      refine ⟨h1, fun e he => ?_, t, ht, hmem, hpw⟩
      rcases h2 e he with h | h | h
      · exact Or.inl h
      · exact Or.inr (Or.inl (by simp only [List.map_cons]; exact List.mem_cons_of_mem _ h))
      · exact Or.inr (Or.inr h)
    · by_cases himp : dist.getD u ⊤ + w < dist.getD v ⊤
      · rw [relaxNeighbors_cons_improve _ _ _ _ _ _ _ _ _ _ _ hv himp]
        set st0 : AlgorithmStep :=
          ⟨sn + 1, (u : ℤ), visited, dist.set v (dist.getD u ⊤ + w),
            prev.set v (some u), heappush pq (dist.getD u ⊤ + w, v),
            "Update distance to " ++ get_label labels v ++ ": " ++
              (if dist.getD v ⊤ = ⊤ then "infinity" else pyNumStr (dist.getD v ⊤)) ++
              " -> " ++ pyNumStr (dist.getD u ⊤ + w) ++ " (via " ++
              get_label labels u ++ ")"⟩ with hst0
        obtain ⟨h1, h2, t, ht, hmem, hpw⟩ := ih (dist.set v (dist.getD u ⊤ + w))
          (prev.set v (some u)) (heappush pq (dist.getD u ⊤ + w, v))
          (steps ++ [st0]) (sn + 1)
        refine ⟨by omega, fun e he => ?_, ?_⟩
        · rcases h2 e he with h | h | h
          · rcases heappush_subset _ _ e h with h3 | h3 | h3
            · exact Or.inl h3
            · refine Or.inr (Or.inl ?_)
              rw [h3]
              simp only [List.map_cons]
              exact List.mem_cons_self _ _
            · exact Or.inr (Or.inr h3)
          · exact Or.inr (Or.inl (by simp only [List.map_cons]; exact List.mem_cons_of_mem _ h))
          · exact Or.inr (Or.inr h)
        · refine ⟨st0 :: t, ?_, ?_, ?_⟩
          · rw [ht, List.append_assoc]
            rfl
          · intro st hst
            rcases List.mem_cons.mp hst with h | h
            · subst h
              refine ⟨?_, ?_, ?_, ?_⟩
              · show ("Update distance to ".data.isPrefixOf st0.description.data) = true
                rw [hst0]
                simp only [String.data_append, List.append_assoc]
                exact update_prefix_self _
              · show ("Visit node ".data.isPrefixOf st0.description.data) = false
                rw [hst0]
                simp only [String.data_append, List.append_assoc]
                exact visit_not_prefix_update _
              · exact Nat.lt_succ_self sn
              · exact h1
            · obtain ⟨hu1, hu2, hu3, hu4⟩ := hmem st h
              exact ⟨hu1, hu2, by omega, hu4⟩
          · simp only [List.map_cons]
            refine List.Pairwise.cons ?_ hpw
            intro b hb
            rcases List.mem_map.mp hb with ⟨st, hst, hstb⟩
            have h3 := (hmem st hst).2.2.1
            have hb2 : st0.step_number = sn + 1 := rfl
            omega
      · rw [relaxNeighbors_cons_noimp _ _ _ _ _ _ _ _ _ _ _ hv himp]
        obtain ⟨h1, h2, t, ht, hmem, hpw⟩ := ih dist prev pq steps sn
        refine ⟨h1, fun e he => ?_, t, ht, hmem, hpw⟩
        rcases h2 e he with h | h | h
        · exact Or.inl h
        · exact Or.inr (Or.inl (by simp only [List.map_cons]; exact List.mem_cons_of_mem _ h))
        · exact Or.inr (Or.inr h)

/-! ## Equation lemmas for the main loop -/

lemma dijkstraLoop_succ_nil (adj : List (List (ℕ × QI))) (labels : Option (List String))
    (counter : ℕ) (visited : Finset ℕ) (dist : List QI) (prev : List (Option ℕ))
    (steps : List AlgorithmStep) (sn : ℕ) :
    dijkstraLoop adj labels (counter + 1) [] visited dist prev steps sn
      = ⟨visited, dist, prev, steps, sn⟩ := rfl

/-- C5's first half at the level of the loop: popping a stale entry only
advances the step counter; the visited set, maps and recorded steps are
untouched. -/
lemma dijkstraLoop_stale (adj : List (List (ℕ × QI))) (labels : Option (List String))
    (counter : ℕ) (pq : List Entry) (visited : Finset ℕ) (dist : List QI)
    (prev : List (Option ℕ)) (steps : List AlgorithmStep) (sn : ℕ)
    (hne : pq ≠ []) (hv : (heappop pq).1.2 ∈ visited) :
    dijkstraLoop adj labels (counter + 1) pq visited dist prev steps sn
      = dijkstraLoop adj labels counter (heappop pq).2 visited dist prev steps (sn + 1) := by
  cases pq with
  | nil => exact absurd rfl hne
  | cons a t =>
    show (if (heappop (a :: t)).1.2 ∈ visited then _ else _) = _
    rw [if_pos hv]

lemma dijkstraLoop_fresh (adj : List (List (ℕ × QI))) (labels : Option (List String))
    (counter : ℕ) (pq : List Entry) (visited : Finset ℕ) (dist : List QI)
    (prev : List (Option ℕ)) (steps : List AlgorithmStep) (sn : ℕ)
    (hne : pq ≠ []) (hv : (heappop pq).1.2 ∉ visited) :
    dijkstraLoop adj labels (counter + 1) pq visited dist prev steps sn
      = dijkstraLoop adj labels counter
          (relaxNeighbors labels (heappop pq).1.2 (insert (heappop pq).1.2 visited)
            (adj.getD (heappop pq).1.2 []) dist prev (heappop pq).2
            (steps ++ [⟨sn + 1, ((heappop pq).1.2 : ℤ), insert (heappop pq).1.2 visited,
              dist, prev, (heappop pq).2,
              "Visit node " ++ get_label labels (heappop pq).1.2 ++ " (distance = " ++
                pyNumStr (heappop pq).1.1 ++ ")"⟩]) (sn + 1)).pq
          (insert (heappop pq).1.2 visited)
          (relaxNeighbors labels (heappop pq).1.2 (insert (heappop pq).1.2 visited)
            (adj.getD (heappop pq).1.2 []) dist prev (heappop pq).2
            (steps ++ [⟨sn + 1, ((heappop pq).1.2 : ℤ), insert (heappop pq).1.2 visited,
              dist, prev, (heappop pq).2,
              "Visit node " ++ get_label labels (heappop pq).1.2 ++ " (distance = " ++
                pyNumStr (heappop pq).1.1 ++ ")"⟩]) (sn + 1)).dist
          (relaxNeighbors labels (heappop pq).1.2 (insert (heappop pq).1.2 visited)
            (adj.getD (heappop pq).1.2 []) dist prev (heappop pq).2
            (steps ++ [⟨sn + 1, ((heappop pq).1.2 : ℤ), insert (heappop pq).1.2 visited,
              dist, prev, (heappop pq).2,
              "Visit node " ++ get_label labels (heappop pq).1.2 ++ " (distance = " ++
                pyNumStr (heappop pq).1.1 ++ ")"⟩]) (sn + 1)).prev
          (relaxNeighbors labels (heappop pq).1.2 (insert (heappop pq).1.2 visited)
            (adj.getD (heappop pq).1.2 []) dist prev (heappop pq).2
            (steps ++ [⟨sn + 1, ((heappop pq).1.2 : ℤ), insert (heappop pq).1.2 visited,
              dist, prev, (heappop pq).2,
              "Visit node " ++ get_label labels (heappop pq).1.2 ++ " (distance = " ++
                pyNumStr (heappop pq).1.1 ++ ")"⟩]) (sn + 1)).steps
          (relaxNeighbors labels (heappop pq).1.2 (insert (heappop pq).1.2 visited)
            (adj.getD (heappop pq).1.2 []) dist prev (heappop pq).2
            (steps ++ [⟨sn + 1, ((heappop pq).1.2 : ℤ), insert (heappop pq).1.2 visited,
              dist, prev, (heappop pq).2,
              "Visit node " ++ get_label labels (heappop pq).1.2 ++ " (distance = " ++
                pyNumStr (heappop pq).1.1 ++ ")"⟩]) (sn + 1)).sn := by
  cases pq with
  | nil => exact absurd rfl hne
  | cons a t =>
    show (if (heappop (a :: t)).1.2 ∈ visited then _ else _) = _
    rw [if_neg hv]

/-- Everything the main loop does to the step list and counter: the counter
never decreases, steps are append-only, every appended step is a visit or an
update step numbered in `(sn, final sn]`, and the appended step numbers are
strictly increasing. -/
lemma dijkstraLoop_steps_spec (adj : List (List (ℕ × QI))) (labels : Option (List String)) :
    ∀ (counter : ℕ) (pq : List Entry) (visited : Finset ℕ) (dist : List QI)
      (prev : List (Option ℕ)) (steps : List AlgorithmStep) (sn : ℕ),
      sn ≤ (dijkstraLoop adj labels counter pq visited dist prev steps sn).sn ∧
      ∃ t, (dijkstraLoop adj labels counter pq visited dist prev steps sn).steps
            = steps ++ t ∧
        (∀ st ∈ t, (isVisitStepB st = true ∨ isUpdateStepB st = true) ∧
          sn < st.step_number ∧
          st.step_number ≤ (dijkstraLoop adj labels counter pq visited dist prev steps sn).sn) ∧
        (t.map AlgorithmStep.step_number).Pairwise (· < ·) := by
  intro counter
  induction counter with
  | zero =>
    intro pq visited dist prev steps sn
    exact ⟨le_rfl, [], (List.append_nil steps).symm,
      fun st hst => absurd hst (List.not_mem_nil st), List.Pairwise.nil⟩
  | succ c ih =>
    intro pq visited dist prev steps sn
    cases pq with
    | nil =>
      exact ⟨le_rfl, [], (List.append_nil steps).symm,
        fun st hst => absurd hst (List.not_mem_nil st), List.Pairwise.nil⟩
    | cons a tl =>
      by_cases hv : (heappop (a :: tl)).1.2 ∈ visited
      · rw [dijkstraLoop_stale adj labels c (a :: tl) visited dist prev steps sn
          (by intro hc; cases hc) hv]
        obtain ⟨h1, t, ht, hmem, hpw⟩ := ih (heappop (a :: tl)).2 visited dist prev steps (sn + 1)
        refine ⟨by omega, t, ht, fun st hst => ?_, hpw⟩
        obtain ⟨hk, hlo, hhi⟩ := hmem st hst
        exact ⟨hk, by omega, hhi⟩
      · rw [dijkstraLoop_fresh adj labels c (a :: tl) visited dist prev steps sn
          (by intro hc; cases hc) hv]
        set u : ℕ := (heappop (a :: tl)).1.2 with hu
        set vs : AlgorithmStep :=
          ⟨sn + 1, (u : ℤ), insert u visited, dist, prev, (heappop (a :: tl)).2,
            "Visit node " ++ get_label labels u ++ " (distance = " ++
              pyNumStr (heappop (a :: tl)).1.1 ++ ")"⟩ with hvs
        obtain ⟨hr1, hrpq, t1, hrt, hrmem, hrpw⟩ :=
          relaxNeighbors_spec labels u (insert u visited) (adj.getD u []) dist prev
            (heappop (a :: tl)).2 (steps ++ [vs]) (sn + 1)
        set rOut := relaxNeighbors labels u (insert u visited) (adj.getD u []) dist prev
          (heappop (a :: tl)).2 (steps ++ [vs]) (sn + 1) with hrOut
        obtain ⟨hl1, t2, hlt, hlmem, hlpw⟩ :=
          ih rOut.pq (insert u visited) rOut.dist rOut.prev rOut.steps rOut.sn
        refine ⟨by omega, vs :: (t1 ++ t2), ?_, ?_, ?_⟩
        · rw [hlt, hrt]
          simp [List.append_assoc]
        · intro st hst
          rcases List.mem_cons.mp hst with h | h
          · subst h
            refine ⟨Or.inl ?_, Nat.lt_succ_self sn, ?_⟩
            · show ("Visit node ".data.isPrefixOf vs.description.data) = true
              rw [hvs]
              simp only [String.data_append, List.append_assoc]
              exact visit_prefix_self _
            · have hvsn : vs.step_number = sn + 1 := rfl
              omega
          · rcases List.mem_append.mp h with h2 | h2
            · obtain ⟨hk1, hk2, hk3, hk4⟩ := hrmem st h2
              exact ⟨Or.inr hk1, by omega, by omega⟩
            · obtain ⟨hk, hlo, hhi⟩ := hlmem st h2
              exact ⟨hk, by omega, hhi⟩
        · simp only [List.map_cons, List.map_append]
          refine List.Pairwise.cons ?_ ?_
          · intro b hb
            have hvsn : vs.step_number = sn + 1 := rfl
            rcases List.mem_append.mp hb with h2 | h2
            · rcases List.mem_map.mp h2 with ⟨st, hst, hstb⟩
              have := (hrmem st hst).2.2.1
              omega
            · rcases List.mem_map.mp h2 with ⟨st, hst, hstb⟩
              have := (hlmem st hst).2.1
              omega
          · rw [List.pairwise_append]
            refine ⟨hrpw, hlpw, ?_⟩
            intro b hb b2 hb2
            rcases List.mem_map.mp hb with ⟨st, hst, hstb⟩
            rcases List.mem_map.mp hb2 with ⟨st2, hst2, hstb2⟩
            have k1 := (hrmem st hst).2.2.2
            have k2 := (hlmem st2 hst2).2.1
            omega

/-! ## Visit-step bookkeeping -/

lemma visitNodes_append (s t : List AlgorithmStep) :
    visitNodes (s ++ t) = visitNodes s ++ visitNodes t := by
  simp [visitNodes, List.filter_append]

lemma visitNodes_visit (st : AlgorithmStep) (h : isVisitStepB st = true) :
    visitNodes [st] = [st.current_node] := by
  simp [visitNodes, List.filter, h]

lemma visitNodes_not_visit (st : AlgorithmStep) (h : isVisitStepB st = false) :
    visitNodes [st] = [] := by
  simp [visitNodes, List.filter, h]

lemma visitNodes_none (t : List AlgorithmStep) (h : ∀ st ∈ t, isVisitStepB st = false) :
    visitNodes t = [] := by
  unfold visitNodes
  rw [List.filter_eq_nil_iff.mpr (by intro st hst; rw [h st hst]; intro hc; cases hc)]
  rfl

lemma matrix_adj_length (m : List (List QI)) :
    (matrix_to_adjacency_list m).length = m.length := by
  simp [matrix_to_adjacency_list]

lemma matrix_adj_nodes_lt (m : List (List QI)) (i : ℕ) :
    ∀ e ∈ (matrix_to_adjacency_list m).getD i [], e.1 < m.length := by
  intro e he
  by_cases hi : i < (matrix_to_adjacency_list m).length
  · rw [List.getD_eq_getElem _ _ hi] at he
    simp only [matrix_to_adjacency_list, List.getElem_map, List.getElem_range] at he
    obtain ⟨j, hj, hje⟩ := List.mem_filterMap.mp he
    by_cases hc : i ≠ j ∧ (((0 : ℤ) : QI)) < (m.getD i []).getD j (((0 : ℤ) : QI)) ∧
        (m.getD i []).getD j (((0 : ℤ) : QI)) ≠ ⊤
    · rw [if_pos hc] at hje
      have : e.1 = j := by cases hje; rfl
      rw [this]
      have hlen : (matrix_to_adjacency_list m).length = m.length := matrix_adj_length m
      have := List.mem_range.mp hj
      omega
    · rw [if_neg hc] at hje
      exact Option.noConfusion hje
  · rw [List.getD_eq_default _ _ (by omega)] at he
    exact absurd he (List.not_mem_nil e)

/-- `dijkstra` expressed through its loop: on success the source is in range
and the result is the loop output followed by the final step. -/
lemma dijkstra_ok (m : List (List QI)) (s : ℕ) (labels : Option (List String))

    (r : DijkstraResult) (h : dijkstra m s labels = Except.ok r) :
    s < m.length ∧
    r.steps = (dijkstraOut m s labels).steps ++ [finalStepOf (dijkstraOut m s labels)] ∧
    r.distances = (dijkstraOut m s labels).dist ∧
    r.previous = (dijkstraOut m s labels).prev ∧ r.source = s := by
  have hd : dijkstra m s labels
      = if s ≥ m.length then
          Except.error ("Source node " ++ toString s ++ " is out of range [0, " ++
            toString ((m.length : ℤ) - 1) ++ "]")
        else
          Except.ok ⟨(dijkstraOut m s labels).dist, (dijkstraOut m s labels).prev,
            (dijkstraOut m s labels).steps ++ [finalStepOf (dijkstraOut m s labels)], s⟩ :=
    rfl
  rw [hd] at h
  by_cases hs : s ≥ m.length
  · rw [if_pos hs] at h
    exact absurd h (by intro hc; cases hc)
  · rw [if_neg hs] at h
    have h2 := Except.ok.inj h
    rw [← h2]
    exact ⟨by omega, rfl, rfl, rfl, rfl⟩

lemma initStepOf_not_visit (m : List (List QI)) (s : ℕ) (labels : Option (List String)) :
    isVisitStepB (initStepOf m s labels) = false := by
  show ("Visit node ".data.isPrefixOf
    ("Initialize: Set distance to source node " ++ get_label labels s ++
      " = 0, all others = infinity").data) = false
  simp only [String.data_append, List.append_assoc]
  exact visit_not_prefix_init _

lemma initStepOf_not_update (m : List (List QI)) (s : ℕ) (labels : Option (List String)) :
    isUpdateStepB (initStepOf m s labels) = false := by
  show ("Update distance to ".data.isPrefixOf
    ("Initialize: Set distance to source node " ++ get_label labels s ++
      " = 0, all others = infinity").data) = false
  simp only [String.data_append, List.append_assoc]
  exact update_not_prefix_init _

lemma finalStepOf_not_visit (out : LoopOut) :
    isVisitStepB (finalStepOf out) = false := rfl

/-- The visit bookkeeping of the main loop: provided every frontier node and
every adjacency-list neighbor is a real node index, the visited nodes of the
visit steps stay distinct and enumerate the finalized set, so the number of
visit steps is bounded by the node count. -/
lemma dijkstraLoop_visits_spec (adj : List (List (ℕ × QI))) (labels : Option (List String))
    (hadj : ∀ i : ℕ, ∀ e ∈ adj.getD i [], e.1 < adj.length)
    (hn : 0 < adj.length) :
    ∀ (counter : ℕ) (pq : List Entry) (visited : Finset ℕ) (dist : List QI)
      (prev : List (Option ℕ)) (steps : List AlgorithmStep) (sn : ℕ),
      (∀ e ∈ pq, e.2 < adj.length) →
      visited ⊆ Finset.range adj.length →
      (visitNodes steps).Nodup →
      (visitNodes steps).length = visited.card →
      (∀ x ∈ visitNodes steps, ∃ v ∈ visited, (v : ℤ) = x) →
      (visitNodes (dijkstraLoop adj labels counter pq visited dist prev steps sn).steps).Nodup ∧
        (visitNodes (dijkstraLoop adj labels counter pq visited dist prev steps sn).steps).length
          ≤ adj.length := by
  intro counter
  induction counter with
  | zero =>
    intro pq visited dist prev steps sn hpq hvis hnd hlen henum
    refine ⟨hnd, ?_⟩
    show (visitNodes steps).length ≤ adj.length
    rw [hlen]
    calc visited.card ≤ (Finset.range adj.length).card := Finset.card_le_card hvis
      _ = adj.length := Finset.card_range _
  | succ c ih =>
    intro pq visited dist prev steps sn hpq hvis hnd hlen henum
    cases pq with
    | nil =>
      refine ⟨hnd, ?_⟩
      show (visitNodes steps).length ≤ adj.length
      rw [hlen]
      calc visited.card ≤ (Finset.range adj.length).card := Finset.card_le_card hvis
        _ = adj.length := Finset.card_range _
    | cons a tl =>
      by_cases hv : (heappop (a :: tl)).1.2 ∈ visited
      · rw [dijkstraLoop_stale adj labels c (a :: tl) visited dist prev steps sn
          (by intro hc; cases hc) hv]
        refine ih _ _ _ _ _ _ (fun e he => ?_) hvis hnd hlen henum
        rcases heappop_snd_subset (a :: tl) e he with h2 | h2
        · exact hpq e h2
        · rw [h2]
          exact hn
      · rw [dijkstraLoop_fresh adj labels c (a :: tl) visited dist prev steps sn
          (by intro hc; cases hc) hv]
        set u : ℕ := (heappop (a :: tl)).1.2 with hu
        set vs : AlgorithmStep :=
          ⟨sn + 1, (u : ℤ), insert u visited, dist, prev, (heappop (a :: tl)).2,
            "Visit node " ++ get_label labels u ++ " (distance = " ++
              pyNumStr (heappop (a :: tl)).1.1 ++ ")"⟩ with hvs
        obtain ⟨hr1, hrpq, t1, hrt, hrmem, hrpw⟩ :=
          relaxNeighbors_spec labels u (insert u visited) (adj.getD u []) dist prev
            (heappop (a :: tl)).2 (steps ++ [vs]) (sn + 1)
        set rOut := relaxNeighbors labels u (insert u visited) (adj.getD u []) dist prev
          (heappop (a :: tl)).2 (steps ++ [vs]) (sn + 1) with hrOut
        have hu_lt : u < adj.length :=
          hpq _ (heappop_fst_mem (a :: tl) (by intro hc; cases hc))
        have hvs_visit : isVisitStepB vs = true := by
          show ("Visit node ".data.isPrefixOf vs.description.data) = true
          rw [hvs]
          simp only [String.data_append, List.append_assoc]
          exact visit_prefix_self _
        have hrsteps : visitNodes rOut.steps = visitNodes steps ++ [(u : ℤ)] := by
          rw [hrt, visitNodes_append, visitNodes_append,
            visitNodes_visit vs hvs_visit,
            visitNodes_none t1 (fun st hst => (hrmem st hst).2.1)]
          simp
        refine ih rOut.pq (insert u visited) rOut.dist rOut.prev rOut.steps rOut.sn
          (fun e he => ?_) ?_ ?_ ?_ ?_
        · rcases hrpq e he with h2 | h2 | h2
          · rcases heappop_snd_subset (a :: tl) e h2 with h3 | h3
            · exact hpq e h3
            · rw [h3]
              exact hn
          · rcases List.mem_map.mp h2 with ⟨e2, he2, he2e⟩
            have := hadj u e2 he2
            omega
          · rw [h2]
            exact hn
        · exact Finset.insert_subset_iff.mpr ⟨Finset.mem_range.mpr hu_lt, hvis⟩
        · rw [hrsteps]
          rw [List.nodup_append]
          refine ⟨hnd, List.nodup_singleton _, ?_⟩
          intro x hx hx2
          rcases List.mem_singleton.mp hx2 with rfl
          obtain ⟨v, hvmem, hvx⟩ := henum _ hx
          have : v = u := by exact_mod_cast hvx
          exact hv (this ▸ hvmem)
        · rw [hrsteps, List.length_append, hlen]
          simp [Finset.card_insert_of_not_mem hv]
        · rw [hrsteps]
          intro x hx
          rcases List.mem_append.mp hx with h2 | h2
          · obtain ⟨v, hvmem, hvx⟩ := henum _ h2
            exact ⟨v, Finset.mem_insert_of_mem hvmem, hvx⟩
          · rcases List.mem_singleton.mp h2 with rfl
            exact ⟨u, Finset.mem_insert_self _ _, rfl⟩

/-- C9: in every run of `dijkstra` on an N×N matrix, no node appears as the
visited node of two distinct visit steps, and the number of visit steps is at
most N. -/
theorem C9_visit_bound (m : List (List QI)) (s : ℕ) (labels : Option (List String))
    (r : DijkstraResult) (h : dijkstra m s labels = Except.ok r) :
    (visitNodes r.steps).Nodup ∧ (visitNodes r.steps).length ≤ m.length := by
  obtain ⟨hs, hsteps, _, _, _⟩ := dijkstra_ok m s labels r h
  have hlen := matrix_adj_length m
  have hspec := dijkstraLoop_visits_spec (matrix_to_adjacency_list m) labels
    (fun i e he => by rw [hlen]; exact matrix_adj_nodes_lt m i e he)
    (by rw [hlen]; omega)
    ([(((0 : ℤ) : QI), s)].length + ((matrix_to_adjacency_list m).map List.length).sum)
    [(((0 : ℤ) : QI), s)] ∅
    ((List.replicate m.length (⊤ : QI)).set s (((0 : ℤ) : QI)))
    (List.replicate m.length none) [initStepOf m s labels] 0
    (fun e he => by
      rcases List.mem_singleton.mp he with rfl
      show s < (matrix_to_adjacency_list m).length
      rw [hlen]
      omega)
    (Finset.empty_subset _)
    (by rw [visitNodes_not_visit _ (initStepOf_not_visit m s labels)]; exact List.nodup_nil)
    (by rw [visitNodes_not_visit _ (initStepOf_not_visit m s labels)]; simp)
    (by
      rw [visitNodes_not_visit _ (initStepOf_not_visit m s labels)]
      intro x hx
      exact absurd hx (List.not_mem_nil x))
  rw [hsteps, visitNodes_append, visitNodes_not_visit _ (finalStepOf_not_visit _),
    List.append_nil]
  rw [← hlen]
  exact hspec

/-- C9 witness at the single-node run. -/
theorem C9_visit_bound_witness :
    (visitNodes exResult1.steps).Nodup ∧ (visitNodes exResult1.steps).length ≤ 1 :=
  C9_visit_bound [[((0 : ℤ) : QI)]] 0 none exResult1 (by decide)

/-- C5 counterexample: on the run over `[[0]]`, not every step after the
initialization step is a visit or update step — the final completion step is
neither. -/
theorem C5_counterexample :
    ¬ (∀ st ∈ exResult1.steps.drop 1, isVisitStepB st = true ∨ isUpdateStepB st = true) := by
  decide

/-- C5 amended: popping a stale (already-finalized) frontier entry discards
it, advancing only the step counter and recording no step; and every step
recorded strictly between the initialization step and the final completion
step is exactly one visit step or one update (successful relaxation) step. -/
theorem C5_stale_and_events :
    (∀ (adj : List (List (ℕ × QI))) (labels : Option (List String)) (counter : ℕ)
      (pq : List Entry) (visited : Finset ℕ) (dist : List QI) (prev : List (Option ℕ))
      (steps : List AlgorithmStep) (sn : ℕ),
      pq ≠ [] → (heappop pq).1.2 ∈ visited →
      dijkstraLoop adj labels (counter + 1) pq visited dist prev steps sn
        = dijkstraLoop adj labels counter (heappop pq).2 visited dist prev steps (sn + 1)) ∧
    (∀ (m : List (List QI)) (s : ℕ) (labels : Option (List String)) (r : DijkstraResult),
      dijkstra m s labels = Except.ok r →
      ∀ st ∈ (r.steps.drop 1).dropLast, isVisitStepB st = true ∨ isUpdateStepB st = true) := by
  constructor
  · exact fun adj labels counter pq visited dist prev steps sn hne hv =>
      dijkstraLoop_stale adj labels counter pq visited dist prev steps sn hne hv
  · intro m s labels r h st hst
    obtain ⟨hs, hsteps, _, _, _⟩ := dijkstra_ok m s labels r h
    obtain ⟨h0, t, ht, hmem, hpw⟩ := dijkstraLoop_steps_spec (matrix_to_adjacency_list m)
      labels
      ([(((0 : ℤ) : QI), s)].length + ((matrix_to_adjacency_list m).map List.length).sum)
      [(((0 : ℤ) : QI), s)] ∅
      ((List.replicate m.length (⊤ : QI)).set s (((0 : ℤ) : QI)))
      (List.replicate m.length none) [initStepOf m s labels] 0
    have ht2 : (dijkstraOut m s labels).steps = initStepOf m s labels :: t := ht
    rw [hsteps, ht2] at hst
    simp only [List.cons_append, List.drop_succ_cons, List.drop_zero] at hst
    rw [List.dropLast_concat] at hst
    exact (hmem st hst).1

/-- C5 witness: a concrete stale pop leaves the trace untouched, and the
single-node run's mid-trace steps are all visit or update steps. -/
theorem C5_stale_and_events_witness :
    dijkstraLoop [] none 1 [(((0 : ℤ) : QI), 0)] {0} [] [] [] 0
      = dijkstraLoop [] none 0 (heappop [(((0 : ℤ) : QI), 0)]).2 {0} [] [] [] 1 ∧
    (∀ st ∈ (exResult1.steps.drop 1).dropLast,
      isVisitStepB st = true ∨ isUpdateStepB st = true) :=
  ⟨C5_stale_and_events.1 [] none 0 [(((0 : ℤ) : QI), 0)] {0} [] [] [] 0
      (by intro hc; cases hc) (by decide),
   C5_stale_and_events.2 [[((0 : ℤ) : QI)]] 0 none exResult1 (by decide)⟩

/-- C10: the recorded step numbers are strictly increasing and start at 0 for
the initialization step, but they are not necessarily consecutive: on
scenario A the trace's numbers are `[0,…,8,10,12]` — 9 and 11 are consumed by
stale pops that record nothing. -/
theorem C10_step_numbers :
    (∀ (m : List (List QI)) (s : ℕ) (labels : Option (List String)) (r : DijkstraResult),
      dijkstra m s labels = Except.ok r →
      (r.steps.map AlgorithmStep.step_number).Pairwise (· < ·) ∧
      (r.steps.map AlgorithmStep.step_number).head? = some 0) ∧
    (dijkstra exMatrixA 0 none).map (fun r => r.steps.map AlgorithmStep.step_number)
      = Except.ok [0, 1, 2, 3, 4, 5, 6, 7, 8, 10, 12] := by
  constructor
  · intro m s labels r h
    obtain ⟨hs, hsteps, _, _, _⟩ := dijkstra_ok m s labels r h
    obtain ⟨h0, t, ht, hmem, hpw⟩ := dijkstraLoop_steps_spec (matrix_to_adjacency_list m)
      labels
      ([(((0 : ℤ) : QI), s)].length + ((matrix_to_adjacency_list m).map List.length).sum)
      [(((0 : ℤ) : QI), s)] ∅
      ((List.replicate m.length (⊤ : QI)).set s (((0 : ℤ) : QI)))
      (List.replicate m.length none) [initStepOf m s labels] 0
    have ht2 : (dijkstraOut m s labels).steps = initStepOf m s labels :: t := ht
    have h00 : (initStepOf m s labels).step_number = 0 := rfl
    have hfin : (finalStepOf (dijkstraOut m s labels)).step_number
        = (dijkstraOut m s labels).sn + 1 := rfl
    have hsn : (dijkstraLoop (matrix_to_adjacency_list m) labels
        ([(((0 : ℤ) : QI), s)].length + ((matrix_to_adjacency_list m).map List.length).sum)
        [(((0 : ℤ) : QI), s)] ∅
        ((List.replicate m.length (⊤ : QI)).set s (((0 : ℤ) : QI)))
        (List.replicate m.length none) [initStepOf m s labels] 0).sn
        = (dijkstraOut m s labels).sn := rfl
    constructor
    · rw [hsteps, ht2, List.map_append, List.map_cons]
      rw [List.pairwise_append]
      refine ⟨?_, ?_, ?_⟩
      · rw [List.pairwise_cons]
        refine ⟨?_, hpw⟩
        intro b hb
        rcases List.mem_map.mp hb with ⟨st, hst, hstb⟩
        have := (hmem st hst).2.1
        rw [h00]
        omega
      · simp
      · intro a ha b hb
        simp only [List.map_cons, List.map_nil] at hb
        rcases List.mem_singleton.mp hb with rfl
        rw [hfin, ← hsn]
        rcases List.mem_cons.mp ha with h2 | h2
        · rw [h2, h00]
          omega
        · rcases List.mem_map.mp h2 with ⟨st, hst, hstb⟩
          have := (hmem st hst).2.2
          omega
    · rw [hsteps, ht2]
      simp only [List.cons_append, List.map_cons, List.head?_cons, h00]
  · decide

/-- C10 witness at the single-node run. -/
theorem C10_step_numbers_witness :
    (exResult1.steps.map AlgorithmStep.step_number).Pairwise (· < ·) ∧
      (exResult1.steps.map AlgorithmStep.step_number).head? = some 0 :=
  C10_step_numbers.1 [[((0 : ℤ) : QI)]] 0 none exResult1 (by decide)

end DijkstraSpec
